import Mathlib

/-!
Verification development for the chirpy record store and its HTTP handlers.

The Go source is shallowly embedded: Go `map[int]V` values become association
lists `List (Int × V)` manipulated by `mapInsert` / `mapErase` / `mapLookup`
(Go map assignment, `delete`, and indexing); `map[string]bool` used as a set
becomes `List String`; Go `int` becomes `Int`; Go `len` on strings (UTF-8 byte
length) becomes `goStrLen`.  Every operation of the `database` package and the
relevant handler cores of `main.go` are translated function by function.
-/

namespace Chirpy

/-- Go map assignment `m[k] = v`: replace the binding if the key is present,
otherwise append a fresh binding. -/
def mapInsert {α : Type} : List (Int × α) → Int → α → List (Int × α)
  | [], k, v => [(k, v)]
  | p :: rest, k, v => if p.1 = k then (k, v) :: rest else p :: mapInsert rest k v

/-- Go `delete(m, k)`: remove the binding for `k` (the first one; key lists are
kept duplicate-free, see `KeysNodup`). -/
def mapErase {α : Type} : List (Int × α) → Int → List (Int × α)
  | [], _ => []
  | p :: rest, k => if p.1 = k then rest else p :: mapErase rest k

/-- Go map indexing `v, ok := m[k]`. -/
def mapLookup {α : Type} : List (Int × α) → Int → Option α
  | [], _ => none
  | p :: rest, k => if p.1 = k then some p.2 else mapLookup rest k

/-- Go `_, ok := m[k]` membership test. -/
def mapMember {α : Type} (m : List (Int × α)) (k : Int) : Bool :=
  m.any (fun p => p.1 = k)

/-- The key list of an embedded Go map has no duplicates. -/
def KeysNodup {α : Type} (m : List (Int × α)) : Prop :=
  (m.map Prod.fst).Nodup

theorem mapInsert_self {α : Type} (m : List (Int × α)) (k : Int) (v : α) :
    (k, v) ∈ mapInsert m k v := by
  induction m with
  | nil => simp [mapInsert]
  | cons p rest ih =>
      by_cases h : p.1 = k <;> simp [mapInsert, h, ih]

theorem mem_mapInsert {α : Type} {m : List (Int × α)} {k : Int} {v : α} {p : Int × α}
    (hp : p ∈ mapInsert m k v) : p ∈ m ∨ p = (k, v) := by
  induction m with
  | nil => simp [mapInsert] at hp; simp [hp]
  | cons q rest ih =>
      by_cases h : q.1 = k
      · simp [mapInsert, h] at hp
        rcases hp with hp | hp
        · right; simp [hp]
        · left; simp [hp]
      · simp [mapInsert, h] at hp
        rcases hp with hp | hp
        · left; simp [hp]
        · rcases ih hp with hh | hh
          · left; simp [hh]
          · right; exact hh

theorem mapInsert_key_mem {α : Type} {m : List (Int × α)} {p : Int × α}
    (hp : p ∈ m) (k : Int) (v : α) : ∃ w, (p.1, w) ∈ mapInsert m k v := by
  induction m with
  | nil => cases hp
  | cons q rest ih =>
      by_cases h : q.1 = k
      · simp [mapInsert, h]
        rcases List.mem_cons.1 hp with hp | hp
        · subst hp
          exact ⟨v, Or.inl ⟨h, rfl⟩⟩
        · exact ⟨p.2, Or.inr hp⟩
      · rcases List.mem_cons.1 hp with hp | hp
        · subst hp
          exact ⟨p.2, by simp [mapInsert, h]⟩
        · rcases ih hp with ⟨w, hw⟩
          exact ⟨w, by simp [mapInsert, h, hw]⟩

theorem keys_mapInsert {α : Type} (m : List (Int × α)) (k : Int) (v : α) :
    (mapInsert m k v).map Prod.fst =
      if k ∈ m.map Prod.fst then m.map Prod.fst else m.map Prod.fst ++ [k] := by
  induction m with
  | nil => simp [mapInsert]
  | cons p rest ih =>
      by_cases h : p.1 = k
      · simp [mapInsert, h]
      · have hk : (k ∈ p.1 :: rest.map Prod.fst) ↔ k ∈ rest.map Prod.fst := by
          constructor
          · intro hmem
            rcases List.mem_cons.1 hmem with hmem | hmem
            · exact absurd hmem.symm h
            · exact hmem
          · exact fun hmem => List.mem_cons_of_mem _ hmem
        by_cases hm : k ∈ rest.map Prod.fst
        · simp [mapInsert, h, ih, hm, hk]
        · simp [mapInsert, h, ih, hm, hk]

theorem keysNodup_mapInsert {α : Type} {m : List (Int × α)} (hm : KeysNodup m)
    (k : Int) (v : α) : KeysNodup (mapInsert m k v) := by
  unfold KeysNodup at hm ⊢
  rw [keys_mapInsert]
  by_cases h : k ∈ m.map Prod.fst
  · simpa [h] using hm
  · simp only [h, if_false]
    refine List.Nodup.append hm (List.nodup_singleton k) ?_
    intro x hx hk
    rcases List.mem_singleton.1 hk with rfl
    exact h hx

theorem mem_mapErase {α : Type} {m : List (Int × α)} {k : Int} {p : Int × α}
    (hp : p ∈ mapErase m k) : p ∈ m := by
  induction m with
  | nil => cases hp
  | cons q rest ih =>
      by_cases h : q.1 = k
      · simp [mapErase, h] at hp
        exact List.mem_cons_of_mem _ hp
      · simp [mapErase, h] at hp
        rcases hp with hp | hp
        · simp [hp]
        · exact List.mem_cons_of_mem _ (ih hp)

theorem keys_mapErase_sublist {α : Type} (m : List (Int × α)) (k : Int) :
    ((mapErase m k).map Prod.fst).Sublist (m.map Prod.fst) := by
  induction m with
  | nil => simp [mapErase]
  | cons q rest ih =>
      by_cases h : q.1 = k
      · simp only [mapErase, h, if_true, List.map_cons]
        exact (List.sublist_cons_self _ _)
      · simp only [mapErase, h, if_false, List.map_cons]
        exact ih.cons₂ _

theorem keysNodup_mapErase {α : Type} {m : List (Int × α)} (hm : KeysNodup m)
    (k : Int) : KeysNodup (mapErase m k) :=
  List.Nodup.sublist (keys_mapErase_sublist m k) hm

/-- Number of bytes of the UTF-8 encoding of a character (Go strings are UTF-8,
so Go `len` on a string counts these). -/
def charUtf8Size (c : Char) : Nat :=
  if c.toNat < 128 then 1
  else if c.toNat < 2048 then 2
  else if c.toNat < 65536 then 3
  else 4

/-- Go `len(s)` for a string: its UTF-8 byte length. -/
def goStrLen (s : String) : Nat :=
  s.data.foldl (fun n c => n + charUtf8Size c) 0

/-- The id-allocation loop shared by `CreateNewUser` and `CreateChirp`:
`maxId := 0; for id := range m { if id > maxId { maxId = id } }`. -/
def goMaxKey {α : Type} (m : List (Int × α)) : Int :=
  m.foldl (fun maxId p => if p.1 > maxId then p.1 else maxId) 0

theorem goMaxKey_foldl_init_le {α : Type} (m : List (Int × α)) (a : Int) :
    a ≤ m.foldl (fun maxId p => if p.1 > maxId then p.1 else maxId) a := by
  induction m generalizing a with
  | nil => simp
  | cons p rest ih =>
      simp only [List.foldl_cons]
      refine le_trans ?_ (ih _)
      by_cases h : p.1 > a
      · simpa [h] using le_of_lt h
      · simp [h]

theorem goMaxKey_foldl_mem_le {α : Type} {m : List (Int × α)} {p : Int × α}
    (hp : p ∈ m) (a : Int) :
    p.1 ≤ m.foldl (fun maxId q => if q.1 > maxId then q.1 else maxId) a := by
  induction m generalizing a with
  | nil => cases hp
  | cons q rest ih =>
      rcases List.mem_cons.1 hp with hp | hp
      · subst hp
        simp only [List.foldl_cons]
        refine le_trans ?_ (goMaxKey_foldl_init_le rest _)
        by_cases h : p.1 > a
        · simp [h]
        · simpa [h] using le_of_not_lt h
      · simpa using ih hp _

theorem goMaxKey_foldl_cases {α : Type} (m : List (Int × α)) (a : Int) :
    m.foldl (fun maxId q => if q.1 > maxId then q.1 else maxId) a = a ∨
      ∃ p ∈ m, m.foldl (fun maxId q => if q.1 > maxId then q.1 else maxId) a = p.1 := by
  induction m generalizing a with
  | nil => simp
  | cons q rest ih =>
      simp only [List.foldl_cons]
      by_cases h : q.1 > a
      · simp only [h, if_true]
        rcases ih q.1 with hc | ⟨p, hp, hc⟩
        · right; exact ⟨q, List.mem_cons_self _ _, hc⟩
        · right; exact ⟨p, List.mem_cons_of_mem _ hp, hc⟩
      · simp only [h, if_false]
        rcases ih a with hc | ⟨p, hp, hc⟩
        · left; exact hc
        · right; exact ⟨p, List.mem_cons_of_mem _ hp, hc⟩

theorem goMaxKey_nonneg {α : Type} (m : List (Int × α)) : 0 ≤ goMaxKey m :=
  goMaxKey_foldl_init_le m 0

theorem le_goMaxKey_of_mem {α : Type} {m : List (Int × α)} {p : Int × α}
    (hp : p ∈ m) : p.1 ≤ goMaxKey m :=
  goMaxKey_foldl_mem_le hp 0

theorem goMaxKey_le_of_bound {α : Type} {m : List (Int × α)} {b : Int}
    (hb : 0 ≤ b) (h : ∀ p ∈ m, p.1 ≤ b) : goMaxKey m ≤ b := by
  rcases goMaxKey_foldl_cases m 0 with hc | ⟨p, hp, hc⟩
  · unfold goMaxKey; rw [hc]; exact hb
  · unfold goMaxKey; rw [hc]; exact h p hp

theorem goMaxKey_mono {α : Type} {m m' : List (Int × α)}
    (h : ∀ p ∈ m, ∃ w, (p.1, w) ∈ m') : goMaxKey m ≤ goMaxKey m' := by
  rcases goMaxKey_foldl_cases m 0 with hc | ⟨p, hp, hc⟩
  · unfold goMaxKey; rw [hc]; exact goMaxKey_nonneg m'
  · unfold goMaxKey; rw [hc]
    rcases h p hp with ⟨w, hw⟩
    have hw2 := le_goMaxKey_of_mem hw
    exact hw2

theorem goMaxKey_mapInsert_fresh {α : Type} {m : List (Int × α)} {k : Int}
    (hk : goMaxKey m < k) (v : α) : goMaxKey (mapInsert m k v) = k := by
  refine le_antisymm ?_ (le_goMaxKey_of_mem (mapInsert_self m k v))
  refine goMaxKey_le_of_bound (le_trans (goMaxKey_nonneg m) (le_of_lt hk)) ?_
  intro p hp
  rcases mem_mapInsert hp with hpm | hpk
  · exact le_trans (le_goMaxKey_of_mem hpm) (le_of_lt hk)
  · simp [hpk]

/-- Go `strings.Split(s, " ")` on the character list: split at every single
space character; consecutive spaces yield empty tokens. -/
def goSplitSpace : List Char → List (List Char)
  | [] => [[]]
  | c :: rest =>
      match goSplitSpace rest with
      | [] => [[]]
      | t :: ts => if c = ' ' then [] :: t :: ts else (c :: t) :: ts

/-- Go `strings.Join(ws, " ")` on character lists. -/
def joinSpace : List (List Char) → List Char
  | [] => []
  | [w] => w
  | w :: ws => w ++ ' ' :: joinSpace ws

theorem goSplitSpace_ne_nil (l : List Char) : goSplitSpace l ≠ [] := by
  cases l with
  | nil => simp [goSplitSpace]
  | cons c rest =>
      unfold goSplitSpace
      cases goSplitSpace rest with
      | nil => simp
      | cons t ts => by_cases h : c = ' ' <;> simp [h]

theorem joinSpace_cons_cons (w : List Char) (t : List Char) (ts : List (List Char)) :
    joinSpace (w :: t :: ts) = w ++ ' ' :: joinSpace (t :: ts) := rfl

theorem joinSpace_cons_head (c : Char) (t : List Char) (ts : List (List Char)) :
    joinSpace ((c :: t) :: ts) = c :: joinSpace (t :: ts) := by
  cases ts with
  | nil => rfl
  | cons t' ts' => rfl

theorem joinSpace_goSplitSpace (l : List Char) : joinSpace (goSplitSpace l) = l := by
  induction l with
  | nil => rfl
  | cons c rest ih =>
      unfold goSplitSpace
      rcases hs : goSplitSpace rest with _ | ⟨t, ts⟩
      · exact absurd hs (goSplitSpace_ne_nil rest)
      · rw [hs] at ih
        by_cases h : c = ' '
        · subst h
          simp only [if_true]
          rw [joinSpace_cons_cons, ih]
          rfl
        · simp only [h, if_false]
          rw [joinSpace_cons_head, ih]

theorem no_space_mem_goSplitSpace {l : List Char} {w : List Char}
    (hw : w ∈ goSplitSpace l) : ' ' ∉ w := by
  induction l generalizing w with
  | nil =>
      simp [goSplitSpace] at hw
      simp [hw]
  | cons c rest ih =>
      unfold goSplitSpace at hw
      rcases hs : goSplitSpace rest with _ | ⟨t, ts⟩
      · exact absurd hs (goSplitSpace_ne_nil rest)
      · rw [hs] at hw
        by_cases h : c = ' '
        · subst h
          simp only [if_true] at hw
          rcases List.mem_cons.1 hw with hw | hw
          · subst hw; simp
          · exact ih (by rw [hs]; exact hw)
        · simp only [h, if_false] at hw
          rcases List.mem_cons.1 hw with hw | hw
          · subst hw
            intro hmem
            rcases List.mem_cons.1 hmem with hc | hc
            · exact h hc.symm
            · exact ih (by rw [hs]; exact List.mem_cons_self t ts) hc
          · exact ih (by rw [hs]; exact List.mem_cons_of_mem _ hw)

theorem goSplitSpace_no_space {w : List Char} (h : ' ' ∉ w) :
    goSplitSpace w = [w] := by
  induction w with
  | nil => rfl
  | cons c rest ih =>
      have hc : c ≠ ' ' := fun hcc => h (by simp [hcc])
      have hrest : ' ' ∉ rest := fun hmem => h (List.mem_cons_of_mem _ hmem)
      unfold goSplitSpace
      rw [ih hrest]
      simp [hc]

theorem goSplitSpace_append_space {w : List Char} (l : List Char) (h : ' ' ∉ w) :
    goSplitSpace (w ++ ' ' :: l) = w :: goSplitSpace l := by
  induction w with
  | nil =>
      simp only [List.nil_append]
      conv_lhs => rw [goSplitSpace]
      rcases hs : goSplitSpace l with _ | ⟨t, ts⟩
      · exact absurd hs (goSplitSpace_ne_nil l)
      · simp [hs]
  | cons c rest ih =>
      have hc : c ≠ ' ' := fun hcc => h (by simp [hcc])
      have hrest : ' ' ∉ rest := fun hmem => h (List.mem_cons_of_mem _ hmem)
      simp only [List.cons_append]
      conv_lhs => rw [goSplitSpace]
      rw [ih hrest]
      simp [hc]

theorem goSplitSpace_joinSpace {ws : List (List Char)} (hne : ws ≠ [])
    (hns : ∀ w ∈ ws, ' ' ∉ w) : goSplitSpace (joinSpace ws) = ws := by
  induction ws with
  | nil => exact absurd rfl hne
  | cons w ws ih =>
      cases ws with
      | nil =>
          show goSplitSpace (joinSpace [w]) = [w]
          exact goSplitSpace_no_space (hns w (List.mem_cons_self _ _))
      | cons t ts =>
          rw [joinSpace_cons_cons]
          rw [goSplitSpace_append_space _ (hns w (List.mem_cons_self _ _))]
          rw [ih (by simp) (fun x hx => hns x (List.mem_cons_of_mem _ hx))]

/-- `database.Chirp`. -/
structure Chirp where
  id : Int
  body : String
  author_id : Int
  deriving DecidableEq, Repr

/-- `database.User`. -/
structure User where
  id : Int
  email : String
  password : String
  is_chirpy_red : Bool
  deriving DecidableEq, Repr

/-- `database.DBStructure`: the in-memory state.  The Go
`map[string]bool` of revoked refresh tokens only ever holds `true` values, so
it is embedded as the list of its keys. -/
structure DBStructure where
  users : List (Int × User)
  chirps : List (Int × Chirp)
  revokedRefreshTokens : List String
  deriving DecidableEq, Repr

/-- The state `NewDB` starts from when the backing file is empty or absent. -/
def emptyDB : DBStructure :=
  { users := [], chirps := [], revokedRefreshTokens := [] }

/-- `censorChirp` from the database package: split the body on single spaces,
replace each word whose lower-cased form equals a bad word, and re-join.
Case folding is modelled on the ASCII fragment of Go `strings.ToLower`
(the denylist itself is ASCII). -/
def censorChirp (listOfBadWords : List String) (s badWordReplacement : String) : String :=
  let chirpWords := goSplitSpace s.data
  let censored := chirpWords.map (fun word =>
    listOfBadWords.foldl
      (fun cur badWord =>
        if word.map Char.toLower = badWord.data then badWordReplacement.data else cur)
      word)
  String.mk (joinSpace censored)

/-- The denylist literal of `CreateChirp`. -/
def listOfBadWords : List String := ["kerfuffle", "sharbert", "fornax"]

/-- The mask literal of `CreateChirp`. -/
def badWordReplacement : String := "****"

/-- `DB.CheckRefreshTokenIsValid`: true unless the token is in the revoked set
(`_, ok := m[token]; return !ok`). -/
def CheckRefreshTokenIsValid (db : DBStructure) (token : String) : Bool :=
  !(decide (token ∈ db.revokedRefreshTokens))

/-- `DB.RevokeRefreshToken`: insert the token into the revoked set
(`m[token] = true` on a `map[string]bool` is a no-op on a present key). -/
def RevokeRefreshToken (db : DBStructure) (token : String) : DBStructure :=
  { db with
    revokedRefreshTokens :=
      if token ∈ db.revokedRefreshTokens then db.revokedRefreshTokens
      else db.revokedRefreshTokens ++ [token] }

/-- `DB.GetUser`. -/
def GetUser (db : DBStructure) (id : Int) : Except String User :=
  match mapLookup db.users id with
  | some user => Except.ok user
  | none => Except.error ("user with ID " ++ toString id ++ " not found")

/-- `DB.GetChirp`. -/
def GetChirp (db : DBStructure) (id : Int) : Except String Chirp :=
  match mapLookup db.chirps id with
  | some chirp => Except.ok chirp
  | none => Except.error ("chirp with ID " ++ toString id ++ " not found")

/-- `DB.DeleteChirp`: delete the chirp if it exists, else report the error. -/
def DeleteChirp (db : DBStructure) (chirpId : Int) : Except String Unit × DBStructure :=
  if mapMember db.chirps chirpId then
    (Except.ok (), { db with chirps := mapErase db.chirps chirpId })
  else
    (Except.error "chirp doesn't exist", db)

section StoreOps

-- `bcrypt.GenerateFromPassword` with cost 13, abstracted: the development is
-- parametric in the one-way hash (its output value never matters to the claims).
variable (hash : String → String)

/-- `DB.CreateNewUser`: allocate `goMaxKey + 1` as the id, hash the password,
force the chirpy-red flag to false, store and return the record. -/
def CreateNewUser (db : DBStructure) (user : User) : User × DBStructure :=
  let newId := goMaxKey db.users + 1
  let stored : User :=
    { user with id := newId, password := hash user.password, is_chirpy_red := false }
  (stored, { db with users := mapInsert db.users newId stored })

/-- `DB.CreateChirp`: reject bodies longer than 140 bytes before any
filtering; otherwise censor the body, allocate `goMaxKey + 1`, and store. -/
def CreateChirp (db : DBStructure) (newChirp : Chirp) : Except String Chirp × DBStructure :=
  if goStrLen newChirp.body > 140 then
    (Except.error "chirp is too long", db)
  else
    let cleaned := censorChirp listOfBadWords newChirp.body badWordReplacement
    let newId := goMaxKey db.chirps + 1
    let stored : Chirp := { newChirp with body := cleaned, id := newId }
    (Except.ok stored, { db with chirps := mapInsert db.chirps newId stored })

/-- `DB.UpdateUser`: hash the password and store the record at its own id;
no existence or email-uniqueness check is performed. -/
def UpdateUser (db : DBStructure) (user : User) : User × DBStructure :=
  let stored : User := { user with password := hash user.password }
  (stored, { db with users := mapInsert db.users user.id stored })

/-- `DB.UpgradeUserToChirpyRed`: flip the flag if the user exists. -/
def UpgradeUserToChirpyRed (db : DBStructure) (userId : Int) :
    Except String Unit × DBStructure :=
  match mapLookup db.users userId with
  | some user =>
      (Except.ok (),
        { db with users := mapInsert db.users userId { user with is_chirpy_red := true } })
  | none => (Except.error "user not found", db)

end StoreOps

/-- ASCII fragment of Go `unicode.IsUpper` (passwords in scope are ASCII). -/
def unicodeIsUpper (c : Char) : Bool := c.isUpper

/-- ASCII fragment of Go `unicode.IsLower`. -/
def unicodeIsLower (c : Char) : Bool := c.isLower

/-- ASCII fragment of Go `unicode.IsDigit`. -/
def unicodeIsDigit (c : Char) : Bool := c.isDigit

/-- ASCII fragment of Go `unicode.IsPunct(c) || unicode.IsSymbol(c)`: the
printable ASCII characters that are neither letters, digits nor space. -/
def unicodeIsSpecial (c : Char) : Bool :=
  33 ≤ c.toNat && c.toNat ≤ 126 && !(c.isAlphanum)

/-- `isPasswordStrong` from `main.go`: length at least 8 bytes and at least one
uppercase letter, lowercase letter, digit, and punctuation/symbol character
(each `for`/`break` scan becomes `List.any`). -/
def isPasswordStrong (password : String) : Bool :=
  if goStrLen password < 8 then false
  else if !(password.data.any unicodeIsUpper) then false
  else if !(password.data.any unicodeIsLower) then false
  else if !(password.data.any unicodeIsDigit) then false
  else if !(password.data.any unicodeIsSpecial) then false
  else true

/-- Outcome of `createNewUserHandler`, keeping the two distinct 406 error
bodies and the created record's transmitted fields apart. -/
inductive UserCreateResp where
  | emailInUse
  | weakPassword
  | created (id : Int) (email : String)
  deriving DecidableEq, Repr

section Handlers

variable (hash : String → String)

/-- Core of `createNewUserHandler` (after JSON decoding): linear case-sensitive
duplicate-email scan over `GetUsers`, then the password-strength gate, then
`CreateNewUser`. -/
def createNewUserHandler (db : DBStructure) (params : User) :
    UserCreateResp × DBStructure :=
  if db.users.any (fun p => params.email = p.2.email) then
    (UserCreateResp.emailInUse, db)
  else if !(isPasswordStrong params.password) then
    (UserCreateResp.weakPassword, db)
  else
    let r := CreateNewUser hash db params
    (UserCreateResp.created r.1.id r.1.email, r.2)

/-- Core of `deleteChirpHandler` (after token validation): `userId` is the
`Atoi` of the token's subject, `chirpId` the URL parameter.  The first result
is the HTTP status the handler responds with (403, 500, or 200). -/
def deleteChirpHandler (db : DBStructure) (userId chirpId : Int) :
    Nat × DBStructure :=
  if userId ≠ chirpId then (403, db)
  else
    match DeleteChirp db chirpId with
    | (Except.error _, db') => (500, db')
    | (Except.ok _, db') => (200, db')

/-- Core of `updateUserHandler` (after token validation and the
`chirpy-access` issuer check): look the user up, overwrite email and password
from the request, and store via `UpdateUser`.  No email-uniqueness check. -/
def updateUserHandler (db : DBStructure) (userIdInt : Int) (params : User) :
    Nat × DBStructure :=
  match GetUser db userIdInt with
  | Except.error _ => (500, db)
  | Except.ok foundUser =>
      let r := UpdateUser hash db
        { foundUser with email := params.email, password := params.password }
      (200, r.2)

/-- The mutating store operations, for quantifying over interleavings. -/
inductive StoreOp where
  | createUser (u : User)
  | createChirp (c : Chirp)
  | deleteChirp (id : Int)
  | updateUser (u : User)
  | upgradeUser (id : Int)
  | revoke (t : String)
  deriving DecidableEq, Repr

/-- The state reached after one store operation (results discarded). -/
def applyOp (db : DBStructure) : StoreOp → DBStructure
  | StoreOp.createUser u => (CreateNewUser hash db u).2
  | StoreOp.createChirp c => (CreateChirp db c).2
  | StoreOp.deleteChirp i => (DeleteChirp db i).2
  | StoreOp.updateUser u => (UpdateUser hash db u).2
  | StoreOp.upgradeUser i => (UpgradeUserToChirpyRed db i).2
  | StoreOp.revoke t => RevokeRefreshToken db t

/-- The state reached after a sequence of store operations. -/
def applyOps (db : DBStructure) (ops : List StoreOp) : DBStructure :=
  ops.foldl (applyOp hash) db

/-- A state is reachable when some operation sequence produces it from the
empty store `NewDB` starts with. -/
def Reachable (db : DBStructure) : Prop :=
  ∃ ops : List StoreOp, db = applyOps hash emptyDB ops

/-- The user ids handed out by `CreateNewUser` along a run, in order. -/
def userIdsAssigned : DBStructure → List StoreOp → List Int
  | _, [] => []
  | db, op :: ops =>
      match op with
      | StoreOp.createUser u =>
          (CreateNewUser hash db u).1.id :: userIdsAssigned (applyOp hash db op) ops
      | _ => userIdsAssigned (applyOp hash db op) ops

/-- The chirp ids handed out by successful `CreateChirp` calls along a run. -/
def chirpIdsAssigned : DBStructure → List StoreOp → List Int
  | _, [] => []
  | db, op :: ops =>
      match op with
      | StoreOp.createChirp c =>
          match (CreateChirp db c).1 with
          | Except.ok ch => ch.id :: chirpIdsAssigned (applyOp hash db op) ops
          | Except.error _ => chirpIdsAssigned (applyOp hash db op) ops
      | _ => chirpIdsAssigned (applyOp hash db op) ops

/-- Ids returned by a run of `createNewUserHandler` registration requests. -/
def createdUserIds : DBStructure → List User → List Int
  | _, [] => []
  | db, p :: ps =>
      match createNewUserHandler hash db p with
      | (UserCreateResp.created uid _, db') => uid :: createdUserIds db' ps
      | (_, db') => createdUserIds db' ps

end Handlers

/-- `[a, a+1, ..., a+n-1]`. -/
def consecFrom (a : Int) : Nat → List Int
  | 0 => []
  | n + 1 => a :: consecFrom (a + 1) n

/-- `jwt.RegisteredClaims` as populated by this program (times in seconds). -/
structure RegisteredClaims where
  issuer : String
  issuedAt : Nat
  expiresAt : Nat
  subject : String
  deriving DecidableEq, Repr

/-- The access token built by `authenticateUserHandler`:
issuer `"chirpy-access"`, expiry `time.Duration(1) * time.Hour` from now,
subject `fmt.Sprintf("%d", foundUser.Id)`. -/
def accessTokenClaims (now : Nat) (userId : Int) : RegisteredClaims :=
  { issuer := "chirpy-access", issuedAt := now, expiresAt := now + 1 * 3600,
    subject := toString userId }

/-- The refresh token built by `authenticateUserHandler`:
issuer `"chirpy-refresh"`, expiry `time.Duration(24*60) * time.Hour` from now. -/
def refreshTokenClaims (now : Nat) (userId : Int) : RegisteredClaims :=
  { issuer := "chirpy-refresh", issuedAt := now, expiresAt := now + (24 * 60) * 3600,
    subject := toString userId }

/-- The fresh access token built by `refreshTokenHandler` (the subject is
copied from the presented refresh token as a string). -/
def refreshHandlerNewAccessToken (now : Nat) (userId : String) : RegisteredClaims :=
  { issuer := "chirpy-access", issuedAt := now, expiresAt := now + 1 * 3600,
    subject := userId }

/-- Spec reading of a "whitespace-delimited token": a maximal whitespace-free
run of the string.  Used only to compare the Content Filter's actual
tokenization against the spec's wording. -/
def wsTokensAux : List Char → List Char → List (List Char)
  | [], acc => if acc = [] then [] else [acc.reverse]
  | c :: rest, acc =>
      if c.isWhitespace then
        if acc = [] then wsTokensAux rest [] else acc.reverse :: wsTokensAux rest []
      else wsTokensAux rest (c :: acc)

/-- The whitespace-delimited tokens of a string (spec wording, not the code). -/
def wsTokens (s : String) : List (List Char) := wsTokensAux s.data []

theorem mk_data (l : List Char) : (String.mk l).data = l := rfl

theorem censor_foldl (bws : List String) (w m : List Char) (init : List Char) :
    bws.foldl (fun cur bw => if w.map Char.toLower = bw.data then m else cur) init
      = if ∃ bw ∈ bws, w.map Char.toLower = bw.data then m else init := by
  induction bws generalizing init with
  | nil => simp
  | cons b rest ih =>
      rw [List.foldl_cons]
      by_cases h : w.map Char.toLower = b.data
      · rw [if_pos h, ih, ite_self, if_pos ⟨b, List.mem_cons_self b rest, h⟩]
      · rw [if_neg h, ih]
        by_cases h2 : ∃ bw ∈ rest, w.map Char.toLower = bw.data
        · rcases h2 with ⟨bw, hbw, he⟩
          rw [if_pos ⟨bw, hbw, he⟩, if_pos ⟨bw, List.mem_cons_of_mem _ hbw, he⟩]
        · rw [if_neg h2, if_neg ?_]
          rintro ⟨bw, hbw, he⟩
          rcases List.mem_cons.1 hbw with rfl | hbw2
          · exact h he
          · exact h2 ⟨bw, hbw2, he⟩

theorem censorChirp_eq (bws : List String) (s m : String) :
    censorChirp bws s m =
      String.mk (joinSpace ((goSplitSpace s.data).map
        (fun w => if ∃ bw ∈ bws, w.map Char.toLower = bw.data then m.data else w))) := by
  have hmap : (goSplitSpace s.data).map
      (fun word => bws.foldl
        (fun cur badWord => if word.map Char.toLower = badWord.data then m.data else cur)
        word)
      = (goSplitSpace s.data).map
          (fun w => if ∃ bw ∈ bws, w.map Char.toLower = bw.data then m.data else w) :=
    List.map_congr_left (fun w _ => censor_foldl bws w m.data w)
  show String.mk (joinSpace ((goSplitSpace s.data).map
      (fun word => bws.foldl
        (fun cur badWord => if word.map Char.toLower = badWord.data then m.data else cur)
        word))) = _
  rw [hmap]

theorem censorChirp_idem (bws : List String) (s m : String) (hm : ' ' ∉ m.data) :
    censorChirp bws (censorChirp bws s m) m = censorChirp bws s m := by
  rw [censorChirp_eq bws s m, censorChirp_eq]
  have hsplit :
      goSplitSpace (String.mk (joinSpace ((goSplitSpace s.data).map
          (fun w => if ∃ bw ∈ bws, w.map Char.toLower = bw.data then m.data else w)))).data
        = (goSplitSpace s.data).map
            (fun w => if ∃ bw ∈ bws, w.map Char.toLower = bw.data then m.data else w) := by
    rw [mk_data]
    refine goSplitSpace_joinSpace ?_ ?_
    · simp [List.map_eq_nil_iff]
      exact goSplitSpace_ne_nil s.data
    · intro w hw
      rcases List.mem_map.1 hw with ⟨w0, hw0, rfl⟩
      by_cases h : ∃ bw ∈ bws, w0.map Char.toLower = bw.data
      · simpa [h] using hm
      · simpa [h] using no_space_mem_goSplitSpace hw0
  rw [hsplit, List.map_map]
  have hmap2 : (goSplitSpace s.data).map
      ((fun w => if ∃ bw ∈ bws, w.map Char.toLower = bw.data then m.data else w) ∘
        (fun w => if ∃ bw ∈ bws, w.map Char.toLower = bw.data then m.data else w))
      = (goSplitSpace s.data).map
          (fun w => if ∃ bw ∈ bws, w.map Char.toLower = bw.data then m.data else w) := by
    refine List.map_congr_left ?_
    intro w _
    by_cases h : ∃ bw ∈ bws, w.map Char.toLower = bw.data
    · simp [Function.comp, h, ite_self]
    · simp [Function.comp, h]
  rw [hmap2]

/-- C6 (counterexample): `censorChirp` tokenizes on single spaces, not on
whitespace.  In `"kerfuffle\tx"` the whitespace-delimited token `"kerfuffle"`
is on the denylist, yet the filter leaves the string untouched, while the
same token delimited by a space is replaced. -/
theorem censorChirp_tab_token_not_replaced :
    censorChirp listOfBadWords "kerfuffle\tx" badWordReplacement = "kerfuffle\tx" ∧
    "kerfuffle".data ∈ wsTokens "kerfuffle\tx" ∧
    "kerfuffle" ∈ listOfBadWords ∧
    censorChirp listOfBadWords "kerfuffle x" badWordReplacement = "**** x" :=
  ⟨by decide, by decide, by decide, by decide⟩

/-- C6 (amended): the Content Filter replaces exactly those space-delimited
tokens whose ASCII-lowercased form equals a denylist word with the mask, and
leaves every other token (for example `"kerfuffle!"`) unchanged; matching is
case-insensitive. -/
theorem censorChirp_space_token_characterization :
    (∀ s : String,
      censorChirp listOfBadWords s badWordReplacement =
        String.mk (joinSpace ((goSplitSpace s.data).map
          (fun w => if ∃ bw ∈ listOfBadWords, w.map Char.toLower = bw.data
                    then badWordReplacement.data else w)))) ∧
    censorChirp listOfBadWords "KERFUFFLE" badWordReplacement = "****" ∧
    censorChirp listOfBadWords "Kerfuffle" badWordReplacement = "****" ∧
    censorChirp listOfBadWords "kerfuffle" badWordReplacement = "****" ∧
    censorChirp listOfBadWords "kerfuffle!" badWordReplacement = "kerfuffle!" ∧
    censorChirp listOfBadWords "this is a kerfuffle" badWordReplacement = "this is a ****" :=
  ⟨fun s => censorChirp_eq _ s _, by decide, by decide, by decide, by decide, by decide⟩

/-- C7: the Content Filter is idempotent — filtering an already-filtered body
yields the same body. -/
theorem censorChirp_idempotent :
    ∀ s : String,
      censorChirp listOfBadWords (censorChirp listOfBadWords s badWordReplacement)
          badWordReplacement
        = censorChirp listOfBadWords s badWordReplacement :=
  fun s => censorChirp_idem listOfBadWords s badWordReplacement (by decide)

/-- C5: `CreateChirp` fails with the too-long error exactly when the
unfiltered body exceeds 140 bytes, leaving the store untouched; otherwise it
stores the content-filtered body under id `goMaxKey + 1`. -/
theorem createChirp_toolong_iff :
    ∀ (db : DBStructure) (c : Chirp),
      (goStrLen c.body > 140 →
        CreateChirp db c = (Except.error "chirp is too long", db)) ∧
      (goStrLen c.body ≤ 140 →
        CreateChirp db c =
          (Except.ok
              { c with body := censorChirp listOfBadWords c.body badWordReplacement,
                       id := goMaxKey db.chirps + 1 },
            { db with chirps := (mapInsert db.chirps (goMaxKey db.chirps + 1)
                ({ c with body := censorChirp listOfBadWords c.body badWordReplacement,
                          id := goMaxKey db.chirps + 1 })) })) := by
  intro db c
  constructor
  · intro h
    simp [CreateChirp, h]
  · intro h
    have h2 : ¬ goStrLen c.body > 140 := not_lt.2 h
    simp [CreateChirp, h2]

set_option maxRecDepth 4000 in
theorem createChirp_toolong_iff_witness :
    (goStrLen (String.mk (List.replicate 141 'a')) > 140 ∧
      CreateChirp emptyDB { id := 0, body := String.mk (List.replicate 141 'a'), author_id := 1 }
        = (Except.error "chirp is too long", emptyDB)) ∧
    (goStrLen "hi kerfuffle" ≤ 140 ∧
      CreateChirp emptyDB { id := 0, body := "hi kerfuffle", author_id := 1 }
        = (Except.ok { id := 1, body := "hi ****", author_id := 1 },
            { users := [], chirps := [(1, { id := 1, body := "hi ****", author_id := 1 })],
              revokedRefreshTokens := [] })) := by
  refine ⟨⟨by decide, ?_⟩, ⟨by decide, ?_⟩⟩
  · exact (createChirp_toolong_iff emptyDB _).1 (by decide)
  · have h := (createChirp_toolong_iff emptyDB
      { id := 0, body := "hi kerfuffle", author_id := 1 }).2 (by decide)
    rw [h]
    rfl

/-- C8: access tokens are issued with issuer `"chirpy-access"`, expiry one
hour after issuance, and subject the stringified user id; refresh tokens with
issuer `"chirpy-refresh"` and expiry 1440 hours (60 days) after issuance.
The refresh endpoint's fresh access token has the same access shape. -/
theorem token_issuance_claims :
    ∀ (now : Nat) (userId : Int) (subj : String),
      accessTokenClaims now userId =
        { issuer := "chirpy-access", issuedAt := now, expiresAt := now + 60 * 60,
          subject := toString userId } ∧
      refreshTokenClaims now userId =
        { issuer := "chirpy-refresh", issuedAt := now, expiresAt := now + 1440 * 60 * 60,
          subject := toString userId } ∧
      (refreshTokenClaims now userId).expiresAt - (refreshTokenClaims now userId).issuedAt
        = 60 * (24 * 60 * 60) ∧
      refreshHandlerNewAccessToken now subj =
        { issuer := "chirpy-access", issuedAt := now, expiresAt := now + 60 * 60,
          subject := subj } := by
  intro now userId subj
  refine ⟨?_, ?_, ?_, ?_⟩ <;>
    simp [accessTokenClaims, refreshTokenClaims, refreshHandlerNewAccessToken]

theorem revoked_mem_applyOp (hash : String → String) (db : DBStructure) (op : StoreOp)
    {t : String} (ht : t ∈ db.revokedRefreshTokens) :
    t ∈ (applyOp hash db op).revokedRefreshTokens := by
  cases op with
  | createUser u => simpa [applyOp, CreateNewUser] using ht
  | createChirp c =>
      by_cases h : goStrLen c.body > 140 <;> simpa [applyOp, CreateChirp, h] using ht
  | deleteChirp i =>
      by_cases h : mapMember db.chirps i <;> simpa [applyOp, DeleteChirp, h] using ht
  | updateUser u => simpa [applyOp, UpdateUser] using ht
  | upgradeUser i =>
      rcases h : mapLookup db.users i with _ | u <;>
        simpa [applyOp, UpgradeUserToChirpyRed, h] using ht
  | revoke s =>
      by_cases h : s ∈ db.revokedRefreshTokens
      · simpa [applyOp, RevokeRefreshToken, h] using ht
      · simp [applyOp, RevokeRefreshToken, h]
        exact Or.inl ht

theorem revoked_mem_applyOps (hash : String → String) (ops : List StoreOp) :
    ∀ (db : DBStructure) {t : String}, t ∈ db.revokedRefreshTokens →
      t ∈ (applyOps hash db ops).revokedRefreshTokens := by
  induction ops with
  | nil => intro db t ht; exact ht
  | cons op ops ih =>
      intro db t ht
      exact ih (applyOp hash db op) (revoked_mem_applyOp hash db op ht)

theorem mem_revoke_self (db : DBStructure) (t : String) :
    t ∈ (RevokeRefreshToken db t).revokedRefreshTokens := by
  unfold RevokeRefreshToken
  by_cases h : t ∈ db.revokedRefreshTokens
  · simp [h]
  · simp [h]

/-- C9: `CheckRefreshTokenIsValid` is true exactly off the revoked set;
after `RevokeRefreshToken` the token is invalid and stays invalid across
every further sequence of store operations; re-revoking is a no-op. -/
theorem refresh_revocation_monotone_idempotent :
    ∀ (hash : String → String) (db : DBStructure) (t : String) (ops : List StoreOp),
      (CheckRefreshTokenIsValid db t = true ↔ t ∉ db.revokedRefreshTokens) ∧
      CheckRefreshTokenIsValid (RevokeRefreshToken db t) t = false ∧
      CheckRefreshTokenIsValid (applyOps hash (RevokeRefreshToken db t) ops) t = false ∧
      RevokeRefreshToken (RevokeRefreshToken db t) t = RevokeRefreshToken db t := by
  intro hash db t ops
  have hcheck : ∀ d : DBStructure, t ∈ d.revokedRefreshTokens →
      CheckRefreshTokenIsValid d t = false := by
    intro d hd
    simp [CheckRefreshTokenIsValid, hd]
  refine ⟨?_, ?_, ?_, ?_⟩
  · simp [CheckRefreshTokenIsValid]
  · exact hcheck _ (mem_revoke_self db t)
  · exact hcheck _ (revoked_mem_applyOps hash ops _ (mem_revoke_self db t))
  · by_cases hmem : t ∈ db.revokedRefreshTokens
    · simp [RevokeRefreshToken, hmem]
    · simp [RevokeRefreshToken, hmem]

/-- A store holding the single chirp with id 2 authored by user 1. -/
def dbChirpTwo : DBStructure :=
  { users := [], chirps := [(2, { id := 2, body := "hello", author_id := 1 })],
    revokedRefreshTokens := [] }

/-- C1 (code bug): `deleteChirpHandler` authorizes by comparing the token's
user id with the chirp id instead of the chirp's `author_id`.  For the chirp
`{id 2, author_id 1}`: user 2 (not the author) deletes it successfully (200),
while user 1 (the author) is rejected with 403 Forbidden. -/
theorem deleteChirp_compares_chirp_id_not_author :
    (dbChirpTwo.chirps.map (fun p => p.2.author_id) = [1]) ∧
    deleteChirpHandler dbChirpTwo 2 2
      = (200, { users := [], chirps := [], revokedRefreshTokens := [] }) ∧
    (2 : Int) ≠ (1 : Int) ∧
    deleteChirpHandler dbChirpTwo 1 2 = (403, dbChirpTwo) :=
  ⟨by decide, by decide, by decide, by decide⟩

/-- User record stored under id 1 in the two-user fixture. -/
def userA : User :=
  { id := 1, email := "a@x.com", password := "h1", is_chirpy_red := false }

/-- User record stored under id 2 in the two-user fixture. -/
def userB : User :=
  { id := 2, email := "b@x.com", password := "h2", is_chirpy_red := false }

/-- A store holding two users with distinct emails. -/
def dbTwoUsers : DBStructure :=
  { users := [(1, userA), (2, userB)], chirps := [], revokedRefreshTokens := [] }

/-- An update/registration request reusing `userA`'s email. -/
def dupEmailParams : User :=
  { id := 0, email := "a@x.com", password := "pw", is_chirpy_red := false }

/-- A registration request with a fresh email but a weak password. -/
def weakParams : User :=
  { id := 0, email := "w@x.com", password := "weak", is_chirpy_red := false }

/-- A registration request with a fresh email and a strong password. -/
def strongParams : User :=
  { id := 0, email := "s@x.com", password := "Abcde1!x", is_chirpy_red := false }

/-- A second strong registration request with another fresh email. -/
def strongParams2 : User :=
  { id := 0, email := "t@x.com", password := "Fghij2?y", is_chirpy_red := false }

/-- The duplicate-email branch of `createNewUserHandler`. -/
theorem createNewUserHandler_dup_email (hash : String → String) {db : DBStructure}
    {params : User} (h : db.users.any (fun q => params.email = q.2.email) = true) :
    createNewUserHandler hash db params = (UserCreateResp.emailInUse, db) := by
  simp [createNewUserHandler, h]

/-- The success branch of `createNewUserHandler`. -/
theorem createNewUserHandler_success (hash : String → String) {db : DBStructure}
    {params : User} (hemail : db.users.any (fun q => params.email = q.2.email) = false)
    (hstrong : isPasswordStrong params.password = true) :
    createNewUserHandler hash db params =
      (UserCreateResp.created (goMaxKey db.users + 1) params.email,
        { db with users := (mapInsert db.users (goMaxKey db.users + 1)
            ({ params with id := goMaxKey db.users + 1,
                           password := hash params.password,
                           is_chirpy_red := false })) }) := by
  simp [createNewUserHandler, hemail, hstrong, CreateNewUser]

/-- C3 (counterexample): `updateUserHandler` performs no email-uniqueness
check — updating user 2 to user 1's email succeeds (200) and leaves two
stored users with the same email. -/
theorem updateUser_allows_duplicate_email :
    (updateUserHandler (fun s => s) dbTwoUsers 2 dupEmailParams).1 = 200 ∧
    ((updateUserHandler (fun s => s) dbTwoUsers 2 dupEmailParams).2.users.map
        (fun p => p.2.email))
      = ["a@x.com", "a@x.com"] :=
  ⟨by decide, by decide⟩

/-- C3 (amended): user creation enforces email uniqueness — creating a user
whose email exactly (case-sensitively) equals a stored user's email fails with
the duplicate-email error and leaves the store unchanged; the update operation
performs no such check, so an update can make two stored users share an email. -/
theorem createUser_duplicate_email_rejected :
    ∀ (hash : String → String) (db : DBStructure) (params : User) (q : Int × User),
      q ∈ db.users → q.2.email = params.email →
      createNewUserHandler hash db params = (UserCreateResp.emailInUse, db) := by
  intro hash db params q hq he
  refine createNewUserHandler_dup_email hash ?_
  refine List.any_eq_true.2 ⟨q, hq, ?_⟩
  simp [he]

theorem createUser_duplicate_email_rejected_witness :
    ((1, userA) ∈ dbTwoUsers.users ∧ userA.email = dupEmailParams.email) ∧
    createNewUserHandler (fun s => s) dbTwoUsers dupEmailParams
      = (UserCreateResp.emailInUse, dbTwoUsers) :=
  ⟨⟨by decide, by decide⟩,
    createUser_duplicate_email_rejected (fun s => s) dbTwoUsers dupEmailParams (1, userA)
      (by decide) (by decide)⟩

/-- C10: registration enforces an (unspecified) password-strength
precondition: `isPasswordStrong` is exactly "at least 8 bytes, one uppercase,
one lowercase, one digit, one punctuation/symbol", and with a fresh email the
handler fails with the weak-password error (without mutating state) exactly
unless the password is strong. -/
theorem createUser_password_strength_precondition :
    ∀ (hash : String → String) (db : DBStructure) (params : User),
      (isPasswordStrong params.password =
        (decide (8 ≤ goStrLen params.password) &&
          params.password.data.any unicodeIsUpper &&
          params.password.data.any unicodeIsLower &&
          params.password.data.any unicodeIsDigit &&
          params.password.data.any unicodeIsSpecial)) ∧
      (db.users.any (fun p => params.email = p.2.email) = false →
        isPasswordStrong params.password = false →
        createNewUserHandler hash db params = (UserCreateResp.weakPassword, db)) ∧
      (db.users.any (fun p => params.email = p.2.email) = false →
        isPasswordStrong params.password = true →
        createNewUserHandler hash db params =
          (UserCreateResp.created (goMaxKey db.users + 1) params.email,
            { db with users := (mapInsert db.users (goMaxKey db.users + 1)
                ({ params with id := goMaxKey db.users + 1,
                               password := hash params.password,
                               is_chirpy_red := false })) })) := by
  intro hash db params
  refine ⟨?_, ?_, ?_⟩
  · unfold isPasswordStrong
    by_cases h1 : goStrLen params.password < 8
    · have h1' : ¬ 8 ≤ goStrLen params.password := Nat.not_le.2 h1
      simp [h1, h1']
    · have h1' : 8 ≤ goStrLen params.password := Nat.le_of_not_lt h1
      cases h2 : params.password.data.any unicodeIsUpper <;>
        cases h3 : params.password.data.any unicodeIsLower <;>
          cases h4 : params.password.data.any unicodeIsDigit <;>
            cases h5 : params.password.data.any unicodeIsSpecial <;>
              simp [h1, h1', h2, h3, h4, h5]
  · intro hemail hweak
    simp [createNewUserHandler, hemail, hweak]
  · intro hemail hstrong
    exact createNewUserHandler_success hash hemail hstrong

theorem createUser_password_strength_precondition_witness :
    (emptyDB.users.any (fun p => weakParams.email = p.2.email) = false ∧
      isPasswordStrong weakParams.password = false ∧
      createNewUserHandler (fun s => s) emptyDB weakParams
        = (UserCreateResp.weakPassword, emptyDB)) ∧
    (emptyDB.users.any (fun p => strongParams.email = p.2.email) = false ∧
      isPasswordStrong strongParams.password = true ∧
      (createNewUserHandler (fun s => s) emptyDB strongParams).1
        = UserCreateResp.created 1 "s@x.com") := by
  refine ⟨⟨by decide, by decide, ?_⟩, ⟨by decide, by decide, ?_⟩⟩
  · exact (createUser_password_strength_precondition (fun s => s) emptyDB weakParams).2.1
      (by decide) (by decide)
  · have h := (createUser_password_strength_precondition (fun s => s) emptyDB strongParams).2.2
      (by decide) (by decide)
    rw [h]
    decide

theorem createdUserIds_consec (hash : String → String) :
    ∀ (ps : List User) (db : DBStructure),
      ps.Pairwise (fun a b => a.email ≠ b.email) →
      (∀ p ∈ ps, isPasswordStrong p.password = true) →
      (∀ p ∈ ps, ∀ q ∈ db.users, p.email ≠ q.2.email) →
      createdUserIds hash db ps = consecFrom (goMaxKey db.users + 1) ps.length := by
  intro ps
  induction ps with
  | nil => intro db _ _ _; rfl
  | cons p ps ih =>
      intro db hpw hstrong hfresh
      have hany : db.users.any (fun q => p.email = q.2.email) = false := by
        rw [List.any_eq_false]
        intro q hq
        simp only [decide_eq_true_eq]
        exact hfresh p (List.mem_cons_self _ _) q hq
      have hstr : isPasswordStrong p.password = true :=
        hstrong p (List.mem_cons_self _ _)
      have hstep := createNewUserHandler_success hash hany hstr
      have hmax : goMaxKey (mapInsert db.users (goMaxKey db.users + 1)
          ({ p with id := goMaxKey db.users + 1, password := hash p.password,
                    is_chirpy_red := false })) = goMaxKey db.users + 1 :=
        goMaxKey_mapInsert_fresh (lt_add_one _) _
      have hfresh2 : ∀ x ∈ ps, ∀ q ∈ (mapInsert db.users (goMaxKey db.users + 1)
          ({ p with id := goMaxKey db.users + 1, password := hash p.password,
                    is_chirpy_red := false })), x.email ≠ q.2.email := by
        intro x hx q hq
        rcases mem_mapInsert hq with hq | hq
        · exact hfresh x (List.mem_cons_of_mem _ hx) q hq
        · subst hq
          intro he
          exact (List.pairwise_cons.1 hpw).1 x hx he.symm
      have hrec := ih ({ db with users := (mapInsert db.users (goMaxKey db.users + 1)
          ({ p with id := goMaxKey db.users + 1, password := hash p.password,
                    is_chirpy_red := false })) })
        (List.pairwise_cons.1 hpw).2
        (fun x hx => hstrong x (List.mem_cons_of_mem _ hx)) hfresh2
      simp only [createdUserIds, hstep]
      rw [hrec]
      show _ :: consecFrom _ ps.length = consecFrom (goMaxKey db.users + 1) (ps.length + 1)
      rw [consecFrom]
      congr 2
      exact congrArg (fun z => z + 1) hmax

/-- C4 (counterexample): a single registration with a fresh email but weak
password fails, so for that one-call sequence the assigned ids are `[]`
rather than `[1]`. -/
theorem createUser_weak_password_breaks_id_sequence :
    List.Pairwise (fun a b : User => a.email ≠ b.email) [weakParams] ∧
    createNewUserHandler (fun s => s) emptyDB weakParams
      = (UserCreateResp.weakPassword, emptyDB) ∧
    createdUserIds (fun s => s) emptyDB [weakParams] = [] ∧
    ([] : List Int) ≠ consecFrom 1 [weakParams].length :=
  ⟨by decide, by decide, by decide, by decide⟩

/-- C4 (amended): a sequence of registrations with pairwise-distinct emails
and strong passwords, starting from the empty store, is assigned exactly the
ids `1..N` in creation order; a registration whose email equals a stored
user's email fails with the duplicate-email error and leaves the whole store
state unchanged. -/
theorem createUser_sequence_ids_one_to_n :
    ∀ (hash : String → String) (ps : List User) (db : DBStructure) (params : User)
      (q : Int × User),
      (ps.Pairwise (fun a b => a.email ≠ b.email) →
        (∀ p ∈ ps, isPasswordStrong p.password = true) →
        createdUserIds hash emptyDB ps = consecFrom 1 ps.length) ∧
      (q ∈ db.users → q.2.email = params.email →
        createNewUserHandler hash db params = (UserCreateResp.emailInUse, db)) := by
  intro hash ps db params q
  constructor
  · intro hpw hstrong
    have h := createdUserIds_consec hash ps emptyDB hpw hstrong
      (by intro p _ q hq; cases hq)
    simpa [emptyDB, goMaxKey] using h
  · intro hq he
    refine createNewUserHandler_dup_email hash ?_
    refine List.any_eq_true.2 ⟨q, hq, ?_⟩
    simp [he]

theorem createUser_sequence_ids_one_to_n_witness :
    (List.Pairwise (fun a b : User => a.email ≠ b.email) [strongParams, strongParams2] ∧
      (∀ p ∈ [strongParams, strongParams2], isPasswordStrong p.password = true) ∧
      createdUserIds (fun s => s) emptyDB [strongParams, strongParams2]
        = consecFrom 1 2) ∧
    ((1, userA) ∈ dbTwoUsers.users ∧ userA.email = dupEmailParams.email ∧
      createNewUserHandler (fun s => s) dbTwoUsers dupEmailParams
        = (UserCreateResp.emailInUse, dbTwoUsers)) := by
  refine ⟨⟨by decide, by decide, ?_⟩, ⟨by decide, by decide, ?_⟩⟩
  · exact (createUser_sequence_ids_one_to_n (fun s => s) [strongParams, strongParams2]
      dbTwoUsers dupEmailParams (1, userA)).1 (by decide) (by decide)
  · exact (createUser_sequence_ids_one_to_n (fun s => s) [strongParams, strongParams2]
      dbTwoUsers dupEmailParams (1, userA)).2 (by decide) (by decide)

theorem users_applyOp_superset (hash : String → String) (db : DBStructure) (op : StoreOp) :
    ∀ p ∈ db.users, ∃ w, (p.1, w) ∈ (applyOp hash db op).users := by
  intro p hp
  cases op with
  | createUser u =>
      show ∃ w, _ ∈ (CreateNewUser hash db u).2.users
      exact mapInsert_key_mem hp _ _
  | createChirp c =>
      refine ⟨p.2, ?_⟩
      by_cases h : goStrLen c.body > 140 <;> simp [applyOp, CreateChirp, h] <;> exact hp
  | deleteChirp i =>
      refine ⟨p.2, ?_⟩
      by_cases h : mapMember db.chirps i <;> simp [applyOp, DeleteChirp, h] <;> exact hp
  | updateUser u =>
      show ∃ w, _ ∈ (UpdateUser hash db u).2.users
      exact mapInsert_key_mem hp _ _
  | upgradeUser i =>
      rcases h : mapLookup db.users i with _ | u
      · refine ⟨p.2, ?_⟩
        simp [applyOp, UpgradeUserToChirpyRed, h]
        exact hp
      · have : (applyOp hash db (StoreOp.upgradeUser i)).users
            = mapInsert db.users i { u with is_chirpy_red := true } := by
          simp [applyOp, UpgradeUserToChirpyRed, h]
        rw [this]
        exact mapInsert_key_mem hp _ _
  | revoke t =>
      refine ⟨p.2, ?_⟩
      by_cases h : t ∈ db.revokedRefreshTokens <;>
        simp [applyOp, RevokeRefreshToken, h] <;> exact hp

theorem chirps_applyOp_superset (hash : String → String) (db : DBStructure) (op : StoreOp)
    (hop : ∀ i, op ≠ StoreOp.deleteChirp i) :
    ∀ p ∈ db.chirps, ∃ w, (p.1, w) ∈ (applyOp hash db op).chirps := by
  intro p hp
  cases op with
  | deleteChirp i => exact absurd rfl (hop i)
  | createChirp c =>
      by_cases h : goStrLen c.body > 140
      · refine ⟨p.2, ?_⟩
        simp [applyOp, CreateChirp, h]
        exact hp
      · have : (applyOp hash db (StoreOp.createChirp c)).chirps
            = mapInsert db.chirps (goMaxKey db.chirps + 1)
                ({ c with body := censorChirp listOfBadWords c.body badWordReplacement,
                          id := goMaxKey db.chirps + 1 }) := by
          simp [applyOp, CreateChirp, h]
        rw [this]
        exact mapInsert_key_mem hp _ _
  | createUser u =>
      refine ⟨p.2, ?_⟩
      show _ ∈ (CreateNewUser hash db u).2.chirps
      exact hp
  | updateUser u =>
      refine ⟨p.2, ?_⟩
      show _ ∈ (UpdateUser hash db u).2.chirps
      exact hp
  | upgradeUser i =>
      refine ⟨p.2, ?_⟩
      rcases h : mapLookup db.users i with _ | u <;>
        simp [applyOp, UpgradeUserToChirpyRed, h] <;> exact hp
  | revoke t =>
      refine ⟨p.2, ?_⟩
      by_cases h : t ∈ db.revokedRefreshTokens <;>
        simp [applyOp, RevokeRefreshToken, h] <;> exact hp

theorem usersMax_le_applyOp (hash : String → String) (db : DBStructure) (op : StoreOp) :
    goMaxKey db.users ≤ goMaxKey (applyOp hash db op).users :=
  goMaxKey_mono (users_applyOp_superset hash db op)

theorem chirpsMax_le_applyOp (hash : String → String) (db : DBStructure) (op : StoreOp)
    (hop : ∀ i, op ≠ StoreOp.deleteChirp i) :
    goMaxKey db.chirps ≤ goMaxKey (applyOp hash db op).chirps :=
  goMaxKey_mono (chirps_applyOp_superset hash db op hop)

theorem userIdsAssigned_skip (hash : String → String) (db : DBStructure) (op : StoreOp)
    (ops : List StoreOp) (h : ∀ u, op ≠ StoreOp.createUser u) :
    userIdsAssigned hash db (op :: ops) = userIdsAssigned hash (applyOp hash db op) ops := by
  cases op
  case createUser u => exact absurd rfl (h u)
  all_goals rfl

theorem userIdsAssigned_cons_createUser (hash : String → String) (db : DBStructure)
    (u : User) (ops : List StoreOp) :
    userIdsAssigned hash db (StoreOp.createUser u :: ops)
      = (goMaxKey db.users + 1) ::
        userIdsAssigned hash (applyOp hash db (StoreOp.createUser u)) ops := rfl

theorem chirpIdsAssigned_skip (hash : String → String) (db : DBStructure) (op : StoreOp)
    (ops : List StoreOp) (h : ∀ c, op ≠ StoreOp.createChirp c) :
    chirpIdsAssigned hash db (op :: ops)
      = chirpIdsAssigned hash (applyOp hash db op) ops := by
  cases op
  case createChirp c => exact absurd rfl (h c)
  all_goals rfl

theorem chirpIdsAssigned_cons_createChirp (hash : String → String) (db : DBStructure)
    (c : Chirp) (ops : List StoreOp) :
    chirpIdsAssigned hash db (StoreOp.createChirp c :: ops)
      = if goStrLen c.body > 140
        then chirpIdsAssigned hash (applyOp hash db (StoreOp.createChirp c)) ops
        else (goMaxKey db.chirps + 1) ::
          chirpIdsAssigned hash (applyOp hash db (StoreOp.createChirp c)) ops := by
  by_cases h : goStrLen c.body > 140
  · simp [chirpIdsAssigned, CreateChirp, h]
  · simp [chirpIdsAssigned, CreateChirp, h]

theorem userIdsAssigned_strict (hash : String → String) :
    ∀ (ops : List StoreOp) (db : DBStructure),
      List.Chain' (fun a b : Int => a < b) (userIdsAssigned hash db ops) ∧
      ∀ i ∈ userIdsAssigned hash db ops, goMaxKey db.users < i := by
  intro ops
  induction ops with
  | nil =>
      intro db
      exact ⟨List.chain'_nil, by intro i hi; cases hi⟩
  | cons op ops ih =>
      intro db
      obtain ⟨ihc, ihb⟩ := ih (applyOp hash db op)
      cases op with
      | createUser u =>
          rw [userIdsAssigned_cons_createUser]
          have hmem : ((goMaxKey db.users + 1 : Int),
              ({ u with id := goMaxKey db.users + 1, password := hash u.password,
                        is_chirpy_red := false } : User))
              ∈ (applyOp hash db (StoreOp.createUser u)).users := by
            show _ ∈ mapInsert db.users (goMaxKey db.users + 1) _
            exact mapInsert_self _ _ _
          have hle : goMaxKey db.users + 1
              ≤ goMaxKey (applyOp hash db (StoreOp.createUser u)).users :=
            le_goMaxKey_of_mem hmem
          constructor
          · rw [List.chain'_cons']
            refine ⟨?_, ihc⟩
            intro b hb
            exact lt_of_le_of_lt hle (ihb b (List.mem_of_mem_head? hb))
          · intro i hi
            rcases List.mem_cons.1 hi with rfl | hi
            · exact lt_add_one _
            · exact lt_of_le_of_lt (usersMax_le_applyOp hash db _) (ihb i hi)
      | createChirp c =>
          rw [userIdsAssigned_skip hash db _ ops (fun u h => StoreOp.noConfusion h)]
          exact ⟨ihc, fun i hi =>
            lt_of_le_of_lt (usersMax_le_applyOp hash db _) (ihb i hi)⟩
      | deleteChirp j =>
          rw [userIdsAssigned_skip hash db _ ops (fun u h => StoreOp.noConfusion h)]
          exact ⟨ihc, fun i hi =>
            lt_of_le_of_lt (usersMax_le_applyOp hash db _) (ihb i hi)⟩
      | updateUser u =>
          rw [userIdsAssigned_skip hash db _ ops (fun v h => StoreOp.noConfusion h)]
          exact ⟨ihc, fun i hi =>
            lt_of_le_of_lt (usersMax_le_applyOp hash db _) (ihb i hi)⟩
      | upgradeUser j =>
          rw [userIdsAssigned_skip hash db _ ops (fun u h => StoreOp.noConfusion h)]
          exact ⟨ihc, fun i hi =>
            lt_of_le_of_lt (usersMax_le_applyOp hash db _) (ihb i hi)⟩
      | revoke t =>
          rw [userIdsAssigned_skip hash db _ ops (fun u h => StoreOp.noConfusion h)]
          exact ⟨ihc, fun i hi =>
            lt_of_le_of_lt (usersMax_le_applyOp hash db _) (ihb i hi)⟩

theorem chirpIdsAssigned_strict (hash : String → String) :
    ∀ (ops : List StoreOp) (db : DBStructure),
      (∀ i : Int, StoreOp.deleteChirp i ∉ ops) →
      List.Chain' (fun a b : Int => a < b) (chirpIdsAssigned hash db ops) ∧
      ∀ j ∈ chirpIdsAssigned hash db ops, goMaxKey db.chirps < j := by
  intro ops
  induction ops with
  | nil =>
      intro db _
      exact ⟨List.chain'_nil, by intro j hj; cases hj⟩
  | cons op ops ih =>
      intro db hdel
      have hdel2 : ∀ i : Int, StoreOp.deleteChirp i ∉ ops :=
        fun i hi => hdel i (List.mem_cons_of_mem _ hi)
      have hopnd : ∀ i, op ≠ StoreOp.deleteChirp i :=
        fun i he => hdel i (he ▸ List.mem_cons_self _ _)
      obtain ⟨ihc, ihb⟩ := ih (applyOp hash db op) hdel2
      cases op with
      | deleteChirp j => exact absurd (List.mem_cons_self _ _) (hdel j)
      | createChirp c =>
          rw [chirpIdsAssigned_cons_createChirp]
          by_cases h : goStrLen c.body > 140
          · rw [if_pos h]
            exact ⟨ihc, fun j hj =>
              lt_of_le_of_lt (chirpsMax_le_applyOp hash db _ hopnd) (ihb j hj)⟩
          · rw [if_neg h]
            have hmem : ((goMaxKey db.chirps + 1 : Int),
                ({ c with body := censorChirp listOfBadWords c.body badWordReplacement,
                          id := goMaxKey db.chirps + 1 } : Chirp))
                ∈ (applyOp hash db (StoreOp.createChirp c)).chirps := by
              have heq : (applyOp hash db (StoreOp.createChirp c)).chirps
                  = mapInsert db.chirps (goMaxKey db.chirps + 1)
                      ({ c with body := censorChirp listOfBadWords c.body badWordReplacement,
                                id := goMaxKey db.chirps + 1 }) := by
                simp [applyOp, CreateChirp, h]
              rw [heq]
              exact mapInsert_self _ _ _
            have hle : goMaxKey db.chirps + 1
                ≤ goMaxKey (applyOp hash db (StoreOp.createChirp c)).chirps :=
              le_goMaxKey_of_mem hmem
            constructor
            · rw [List.chain'_cons']
              refine ⟨?_, ihc⟩
              intro b hb
              exact lt_of_le_of_lt hle (ihb b (List.mem_of_mem_head? hb))
            · intro j hj
              rcases List.mem_cons.1 hj with rfl | hj
              · exact lt_add_one _
              · exact lt_of_le_of_lt (chirpsMax_le_applyOp hash db _ hopnd) (ihb j hj)
      | createUser u =>
          rw [chirpIdsAssigned_skip hash db _ ops (fun c h => StoreOp.noConfusion h)]
          exact ⟨ihc, fun j hj =>
            lt_of_le_of_lt (chirpsMax_le_applyOp hash db _ hopnd) (ihb j hj)⟩
      | updateUser u =>
          rw [chirpIdsAssigned_skip hash db _ ops (fun c h => StoreOp.noConfusion h)]
          exact ⟨ihc, fun j hj =>
            lt_of_le_of_lt (chirpsMax_le_applyOp hash db _ hopnd) (ihb j hj)⟩
      | upgradeUser k =>
          rw [chirpIdsAssigned_skip hash db _ ops (fun c h => StoreOp.noConfusion h)]
          exact ⟨ihc, fun j hj =>
            lt_of_le_of_lt (chirpsMax_le_applyOp hash db _ hopnd) (ihb j hj)⟩
      | revoke t =>
          rw [chirpIdsAssigned_skip hash db _ ops (fun c h => StoreOp.noConfusion h)]
          exact ⟨ihc, fun j hj =>
            lt_of_le_of_lt (chirpsMax_le_applyOp hash db _ hopnd) (ihb j hj)⟩

/-- The structural invariant of the embedded Go maps: duplicate-free keys,
and every stored record's id field equals its key. -/
def WellFormed (db : DBStructure) : Prop :=
  KeysNodup db.users ∧ KeysNodup db.chirps ∧
  (∀ p ∈ db.users, p.2.id = p.1) ∧ (∀ p ∈ db.chirps, p.2.id = p.1)

theorem mapLookup_mem {α : Type} :
    ∀ (m : List (Int × α)) (k : Int) (v : α), mapLookup m k = some v → (k, v) ∈ m := by
  intro m
  induction m with
  | nil => intro k v h; cases h
  | cons p rest ih =>
      intro k v h
      unfold mapLookup at h
      by_cases hk : p.1 = k
      · rw [if_pos hk] at h
        injection h with h
        subst hk
        subst h
        exact List.mem_cons_self _ _
      · rw [if_neg hk] at h
        exact List.mem_cons_of_mem _ (ih k v h)

theorem wellFormed_emptyDB : WellFormed emptyDB := by
  refine ⟨?_, ?_, ?_, ?_⟩ <;> simp [KeysNodup, emptyDB]

theorem wellFormed_applyOp (hash : String → String) (db : DBStructure) (op : StoreOp)
    (h : WellFormed db) : WellFormed (applyOp hash db op) := by
  obtain ⟨hnu, hnc, hiu, hic⟩ := h
  cases op with
  | createUser u =>
      refine ⟨keysNodup_mapInsert hnu _ _, hnc, ?_, hic⟩
      intro p hp
      rcases mem_mapInsert hp with hp | hp
      · exact hiu p hp
      · subst hp; rfl
  | createChirp c =>
      by_cases hc : goStrLen c.body > 140
      · have heq : applyOp hash db (StoreOp.createChirp c) = db := by
          simp [applyOp, CreateChirp, hc]
        rw [heq]
        exact ⟨hnu, hnc, hiu, hic⟩
      · have heq : applyOp hash db (StoreOp.createChirp c)
            = { db with chirps := (mapInsert db.chirps (goMaxKey db.chirps + 1)
                ({ c with body := censorChirp listOfBadWords c.body badWordReplacement,
                          id := goMaxKey db.chirps + 1 })) } := by
          simp [applyOp, CreateChirp, hc]
        rw [heq]
        refine ⟨hnu, keysNodup_mapInsert hnc _ _, hiu, ?_⟩
        intro p hp
        rcases mem_mapInsert hp with hp | hp
        · exact hic p hp
        · subst hp; rfl
  | deleteChirp i =>
      by_cases hm : mapMember db.chirps i
      · have heq : applyOp hash db (StoreOp.deleteChirp i)
            = { db with chirps := mapErase db.chirps i } := by
          simp [applyOp, DeleteChirp, hm]
        rw [heq]
        exact ⟨hnu, keysNodup_mapErase hnc i, hiu, fun p hp => hic p (mem_mapErase hp)⟩
      · have heq : applyOp hash db (StoreOp.deleteChirp i) = db := by
          simp [applyOp, DeleteChirp, hm]
        rw [heq]
        exact ⟨hnu, hnc, hiu, hic⟩
  | updateUser u =>
      refine ⟨keysNodup_mapInsert hnu _ _, hnc, ?_, hic⟩
      intro p hp
      rcases mem_mapInsert hp with hp | hp
      · exact hiu p hp
      · subst hp; rfl
  | upgradeUser i =>
      rcases hl : mapLookup db.users i with _ | u
      · have heq : applyOp hash db (StoreOp.upgradeUser i) = db := by
          simp [applyOp, UpgradeUserToChirpyRed, hl]
        rw [heq]
        exact ⟨hnu, hnc, hiu, hic⟩
      · have heq : applyOp hash db (StoreOp.upgradeUser i)
            = { db with users := (mapInsert db.users i
                ({ u with is_chirpy_red := true })) } := by
          simp [applyOp, UpgradeUserToChirpyRed, hl]
        rw [heq]
        refine ⟨keysNodup_mapInsert hnu _ _, hnc, ?_, hic⟩
        intro p hp
        rcases mem_mapInsert hp with hp | hp
        · exact hiu p hp
        · subst hp
          exact hiu (i, u) (mapLookup_mem db.users i u hl)
  | revoke t =>
      by_cases hm : t ∈ db.revokedRefreshTokens
      · have heq : applyOp hash db (StoreOp.revoke t) = db := by
          simp [applyOp, RevokeRefreshToken, hm]
        rw [heq]
        exact ⟨hnu, hnc, hiu, hic⟩
      · have heq : applyOp hash db (StoreOp.revoke t)
            = { db with revokedRefreshTokens := db.revokedRefreshTokens ++ [t] } := by
          simp [applyOp, RevokeRefreshToken, hm]
        rw [heq]
        exact ⟨hnu, hnc, hiu, hic⟩

theorem wellFormed_applyOps (hash : String → String) (ops : List StoreOp) :
    ∀ db : DBStructure, WellFormed db → WellFormed (applyOps hash db ops) := by
  induction ops with
  | nil => intro db h; exact h
  | cons op ops ih =>
      intro db h
      exact ih (applyOp hash db op) (wellFormed_applyOp hash db op h)

theorem wellFormed_reachable (hash : String → String) (db : DBStructure)
    (h : Reachable hash db) : WellFormed db := by
  rcases h with ⟨ops, rfl⟩
  exact wellFormed_applyOps hash ops emptyDB wellFormed_emptyDB

theorem recordIds_nodup_of_wellFormed {db : DBStructure} (h : WellFormed db) :
    (db.users.map (fun p => p.2.id)).Nodup ∧ (db.chirps.map (fun p => p.2.id)).Nodup := by
  obtain ⟨hnu, hnc, hiu, hic⟩ := h
  constructor
  · have heq : db.users.map (fun p => p.2.id) = db.users.map Prod.fst :=
      List.map_congr_left (fun p hp => hiu p hp)
    rw [heq]; exact hnu
  · have heq : db.chirps.map (fun p => p.2.id) = db.chirps.map Prod.fst :=
      List.map_congr_left (fun p hp => hic p hp)
    rw [heq]; exact hnc

/-- C2 (counterexample): create chirps 1 and 2, delete chirp 2, create again —
the new chirp is assigned id `2` a second time, so assigned chirp ids are not
strictly increasing across a `DeleteChirp` interleaving. -/
theorem chirp_id_reuse_after_delete :
    chirpIdsAssigned (fun s => s) emptyDB
        [StoreOp.createChirp { id := 0, body := "a", author_id := 1 },
          StoreOp.createChirp { id := 0, body := "b", author_id := 1 },
          StoreOp.deleteChirp 2,
          StoreOp.createChirp { id := 0, body := "c", author_id := 1 }]
      = [1, 2, 2] ∧
    ¬ List.Chain' (fun a b : Int => a < b) [1, 2, 2] :=
  ⟨by decide, by
    intro h
    rw [List.chain'_cons, List.chain'_cons] at h
    exact lt_irrefl 2 h.2.1⟩

/-- C2 (amended): in every reachable state the stored User ids and Chirp ids
are duplicate-free within their namespaces; `CreateNewUser` and `CreateChirp`
allocate `max existing id + 1` (1 on an empty collection), strictly above
every id currently present; user ids are strictly increasing along every
operation history, and chirp ids along every history free of `DeleteChirp` —
after a delete of the highest chirp a previously assigned chirp id can be
reused. -/
theorem id_allocation_unique_max_plus_one :
    ∀ (hash : String → String) (db dbr : DBStructure) (ops : List StoreOp)
      (c : Chirp) (u : User),
      ((CreateNewUser hash db u).1.id = goMaxKey db.users + 1 ∧
        ∀ p ∈ db.users, p.1 < (CreateNewUser hash db u).1.id) ∧
      (goStrLen c.body ≤ 140 →
        ∃ ch : Chirp, (CreateChirp db c).1 = Except.ok ch ∧
          ch.id = goMaxKey db.chirps + 1 ∧ ∀ p ∈ db.chirps, p.1 < ch.id) ∧
      (Reachable hash dbr →
        (dbr.users.map (fun p => p.2.id)).Nodup ∧
        (dbr.chirps.map (fun p => p.2.id)).Nodup) ∧
      List.Chain' (fun a b : Int => a < b) (userIdsAssigned hash emptyDB ops) ∧
      ((∀ i : Int, StoreOp.deleteChirp i ∉ ops) →
        List.Chain' (fun a b : Int => a < b) (chirpIdsAssigned hash emptyDB ops)) := by
  intro hash db dbr ops c u
  refine ⟨⟨rfl, ?_⟩, ?_, ?_, ?_, ?_⟩
  · intro p hp
    exact lt_of_le_of_lt (le_goMaxKey_of_mem hp) (lt_add_one _)
  · intro hlen
    have h2 : ¬ goStrLen c.body > 140 := not_lt.2 hlen
    refine ⟨{ c with body := censorChirp listOfBadWords c.body badWordReplacement,
                     id := goMaxKey db.chirps + 1 }, ?_, rfl, ?_⟩
    · simp [CreateChirp, h2]
    · intro p hp
      exact lt_of_le_of_lt (le_goMaxKey_of_mem hp) (lt_add_one _)
  · intro hreach
    exact recordIds_nodup_of_wellFormed (wellFormed_reachable hash dbr hreach)
  · exact (userIdsAssigned_strict hash ops emptyDB).1
  · intro hdel
    exact (chirpIdsAssigned_strict hash ops emptyDB hdel).1

theorem id_allocation_unique_max_plus_one_witness :
    ((CreateNewUser (fun s => s) emptyDB userA).1.id = goMaxKey emptyDB.users + 1 ∧
      (∀ p ∈ emptyDB.users, p.1 < (CreateNewUser (fun s => s) emptyDB userA).1.id)) ∧
    (∃ ch : Chirp,
      (CreateChirp emptyDB { id := 0, body := "hi", author_id := 1 }).1 = Except.ok ch ∧
      ch.id = goMaxKey emptyDB.chirps + 1 ∧ ∀ p ∈ emptyDB.chirps, p.1 < ch.id) ∧
    ((applyOps (fun s => s) emptyDB [StoreOp.createUser userA]).users.map
        (fun p => p.2.id)).Nodup ∧
    ((applyOps (fun s => s) emptyDB [StoreOp.createUser userA]).chirps.map
        (fun p => p.2.id)).Nodup ∧
    List.Chain' (fun a b : Int => a < b)
      (userIdsAssigned (fun s => s) emptyDB
        [StoreOp.createUser userA, StoreOp.createUser userB]) ∧
    List.Chain' (fun a b : Int => a < b)
      (chirpIdsAssigned (fun s => s) emptyDB
        [StoreOp.createUser userA, StoreOp.createUser userB]) := by
  have h := id_allocation_unique_max_plus_one (fun s => s) emptyDB
    (applyOps (fun s => s) emptyDB [StoreOp.createUser userA])
    [StoreOp.createUser userA, StoreOp.createUser userB]
    { id := 0, body := "hi", author_id := 1 } userA
  have hnodup := h.2.2.1 ⟨[StoreOp.createUser userA], rfl⟩
  refine ⟨h.1, h.2.1 (by decide), hnodup.1, hnodup.2, h.2.2.2.1, h.2.2.2.2 ?_⟩
  intro i hi
  rcases List.mem_cons.1 hi with h1 | hi
  · exact StoreOp.noConfusion h1
  · rcases List.mem_cons.1 hi with h1 | hi
    · exact StoreOp.noConfusion h1
    · cases hi

end Chirpy
